import Mathlib

/-
Verification development for the sparse-operator algebra and excitation-pool
generator of this repository (a qiskit-nature snapshot).

Sources embedded here:
  - src/test/second_q/operators/test_sparse_label_op.py (pins SparseLabelOp behavior)
  - src/test/second_q/circuit/library/ansatzes/test_uccsd.py (pins the UCCSD pool)
  - src/qiskit_nature/second_q/properties/magnetization.py (Magnetization.second_q_ops)

Coefficients are modelled as Gaussian rationals (pairs of rationals), which
represent every coefficient appearing in the sources exactly; magnitude
comparisons are expressed through squared magnitudes to stay inside the
rationals.
-/

namespace QiskitNature

/-- Complex numbers with rational real and imaginary parts.  Every coefficient
appearing in the embedded sources (0.5, 1.0, 1j, 1e-9, ...) is representable
exactly. -/
structure CQ where
  re : ℚ
  im : ℚ
  deriving DecidableEq, Repr

namespace CQ

def zero : CQ := ⟨0, 0⟩

def one : CQ := ⟨1, 0⟩

/-- The imaginary unit, the coefficient 1j of the python sources. -/
def I : CQ := ⟨0, 1⟩

def add (a b : CQ) : CQ := ⟨a.re + b.re, a.im + b.im⟩

def neg (a : CQ) : CQ := ⟨-a.re, -a.im⟩

def sub (a b : CQ) : CQ := ⟨a.re - b.re, a.im - b.im⟩

def mul (a b : CQ) : CQ := ⟨a.re * b.re - a.im * b.im, a.re * b.im + a.im * b.re⟩

/-- Complex conjugation. -/
def conj (a : CQ) : CQ := ⟨a.re, -a.im⟩

/-- Squared magnitude, a rational. -/
def sqAbs (a : CQ) : ℚ := a.re * a.re + a.im * a.im

instance : Zero CQ := ⟨zero⟩
instance : One CQ := ⟨one⟩
instance : Add CQ := ⟨add⟩
instance : Neg CQ := ⟨neg⟩
instance : Sub CQ := ⟨sub⟩
instance : Mul CQ := ⟨mul⟩

theorem addComm (a b : CQ) : a + b = b + a := by
  show add a b = add b a
  simp only [add]
  rw [add_comm a.re, add_comm a.im]

theorem zero_mulCQ (c : CQ) : (0 : CQ) * c = 0 := by
  show mul zero c = zero
  simp [mul, zero]

theorem zero_addCQ (c : CQ) : (0 : CQ) + c = c := by
  show add zero c = c
  simp [add, zero]

theorem add_zeroCQ (c : CQ) : c + (0 : CQ) = c := by
  show add c zero = c
  simp [add, zero]

theorem sub_selfCQ (c : CQ) : c - c = (0 : CQ) := by
  show sub c c = zero
  simp [sub, zero]

theorem sqAbs_zero : sqAbs (0 : CQ) = 0 := by
  show sqAbs zero = 0
  simp [sqAbs, zero]

theorem add_def (a b : CQ) : a + b = ⟨a.re + b.re, a.im + b.im⟩ := rfl

theorem sub_def (a b : CQ) : a - b = ⟨a.re - b.re, a.im - b.im⟩ := rfl

theorem mul_def (a b : CQ) :
    a * b = ⟨a.re * b.re - a.im * b.im, a.re * b.im + a.im * b.re⟩ := rfl

theorem neg_def (a : CQ) : -a = ⟨-a.re, -a.im⟩ := rfl

theorem zero_def : (0 : CQ) = ⟨0, 0⟩ := rfl

theorem one_def : (1 : CQ) = ⟨1, 0⟩ := rfl

end CQ

/-! ### Sparse label operators

The data of a SparseLabelOp is a python dict from string labels to complex
coefficients (insertion ordered, unique keys), together with a register
length.  We embed the dict as an association list; lookup takes the first
matching entry, which agrees with dict semantics on unique keys. -/

/-- An association list embedding of the python dict from labels to
coefficients. -/
abbrev LDict := List (String × CQ)

/-- Dict lookup with the python convention of the sources,
data.get(label, 0): the first matching entry wins (python dicts have unique
keys, so this is dict lookup), and a missing label reads as the zero
coefficient. -/
def getCoeff : LDict → String → CQ
  | [], _ => 0
  | p :: d, l => if p.1 = l then p.2 else getCoeff d l

/-- Whether a label is a key of the dict. -/
def hasLabel : LDict → String → Bool
  | [], _ => false
  | p :: d, l => decide (p.1 = l) || hasLabel d l

/-- Modelled from the spec: the SparseLabelOp value object (the class itself
lives outside src, only its tests do): a mapping from label to coefficient
plus an immutable register length. -/
structure SLOp where
  data : LDict
  registerLength : ℕ
  deriving DecidableEq, Repr

/-- Error taxonomy of the spec (section 7). -/
inductive OpError where
  | mismatchedRegisterLength
  | unsupportedOperandType
  deriving DecidableEq, Repr

/-- A python scalar argument: either a complex number or some non-numeric
value (modelled by its string form), used to express the dynamic type check
of scalar multiplication. -/
inductive PyScalar where
  | num (c : CQ)
  | nonNumeric (s : String)
  deriving DecidableEq, Repr

/-- The label-to-summed-coefficient merge of addition: the labels of the
first operand in order (each coefficient incremented by the second operand
coefficient for that label, zero if missing), then the labels only present
in the second operand, in order. -/
def addData (d1 d2 : LDict) : LDict :=
  d1.map (fun p => (p.1, p.2 + getCoeff d2 p.1)) ++
    d2.filter (fun p => !(hasLabel d1 p.1))

namespace SLOp

/-- Modelled from the spec: add requires equal register length and fails
with MismatchedRegisterLength otherwise; the result maps each label present
in either operand to the sum of the two coefficients, a missing label
counting as zero. -/
def add (a b : SLOp) : Except OpError SLOp :=
  if a.registerLength = b.registerLength then
    .ok ⟨addData a.data b.data, a.registerLength⟩
  else
    .error .mismatchedRegisterLength

/-- Modelled from the spec: scalar multiplication multiplies every
coefficient by the scalar and rejects non-numeric scalars with
UnsupportedOperandType (the TypeError of the tests). -/
def mul (a : SLOp) (v : PyScalar) : Except OpError SLOp :=
  match v with
  | .num c => .ok ⟨a.data.map (fun p => (p.1, p.2 * c)), a.registerLength⟩
  | .nonNumeric _ => .error .unsupportedOperandType

/-- Modelled from the spec: exact equality, the eq comparison of the
sources: total, false on mismatched register length (spec section 7),
otherwise true iff the two label sets are identical and every pairwise
coefficient difference is exactly zero. -/
def eqB (a b : SLOp) : Bool :=
  decide (a.registerLength = b.registerLength) &&
    a.data.all (fun p => hasLabel b.data p.1) &&
    b.data.all (fun p => hasLabel a.data p.1) &&
    a.data.all (fun p => decide (getCoeff a.data p.1 = getCoeff b.data p.1)) &&
    b.data.all (fun p => decide (getCoeff a.data p.1 = getCoeff b.data p.1))

/-- Modelled from the spec: tolerance-based equivalence over the union of
the two supports with implicit zeros, total, false on mismatched register
length; a per-label difference is accepted when its magnitude is at most
tol, expressed through squared magnitudes to stay rational. -/
def equivB (a b : SLOp) (tol : ℚ) : Bool :=
  decide (a.registerLength = b.registerLength) &&
    (a.data.map Prod.fst ++ b.data.map Prod.fst).all
      (fun l => decide (CQ.sqAbs (getCoeff a.data l - getCoeff b.data l) ≤ tol * tol))

/-- The default tolerance 1e-8 of the spec, as an exact rational. -/
def defaultTol : ℚ := 1 / 100000000

/-- Equivalence at the default tolerance. -/
def equivDefault (a b : SLOp) : Bool :=
  equivB a b defaultTol

end SLOp

/-! ### Dict lemmas -/

theorem hasLabel_false_getCoeff {d : LDict} {l : String}
    (h : hasLabel d l = false) : getCoeff d l = 0 := by
  induction d with
  | nil => rfl
  | cons p d ih =>
    simp only [hasLabel, Bool.or_eq_false_iff, decide_eq_false_iff_not] at h
    simp only [getCoeff, if_neg h.1]
    exact ih h.2

theorem hasLabel_append (xs ys : LDict) (l : String) :
    hasLabel (xs ++ ys) l = (hasLabel xs l || hasLabel ys l) := by
  induction xs with
  | nil => simp [hasLabel]
  | cons p xs ih => simp [hasLabel, ih, Bool.or_assoc]

theorem getCoeff_append (xs ys : LDict) (l : String) :
    getCoeff (xs ++ ys) l =
      if hasLabel xs l then getCoeff xs l else getCoeff ys l := by
  induction xs with
  | nil => simp [hasLabel, getCoeff]
  | cons p xs ih =>
    by_cases h : p.1 = l
    · simp [getCoeff, hasLabel, h]
    · simp only [List.cons_append, getCoeff, hasLabel, if_neg h]
      simp only [show decide (p.1 = l) = false from decide_eq_false h,
        Bool.false_or]
      exact ih

/-- The key set of a key-preserving map is unchanged. -/
theorem hasLabel_keyMap (d : LDict) (g : String × CQ → CQ) (l : String) :
    hasLabel (d.map (fun p => (p.1, g p))) l = hasLabel d l := by
  induction d with
  | nil => rfl
  | cons p d ih => simp [hasLabel, ih]

theorem getCoeff_addMap (d1 d2 : LDict) (l : String) :
    getCoeff (d1.map (fun p => (p.1, p.2 + getCoeff d2 p.1))) l =
      if hasLabel d1 l then getCoeff d1 l + getCoeff d2 l else 0 := by
  induction d1 with
  | nil => simp [hasLabel, getCoeff]
  | cons p d1 ih =>
    by_cases h : p.1 = l
    · simp [getCoeff, hasLabel, h]
    · simp only [List.map_cons, getCoeff, hasLabel, if_neg h, ih,
        decide_eq_true_eq]
      simp [h]

theorem getCoeff_mulMap (d : LDict) (c : CQ) (l : String) :
    getCoeff (d.map (fun p => (p.1, p.2 * c))) l = getCoeff d l * c := by
  induction d with
  | nil => simp [getCoeff, CQ.zero_mulCQ]
  | cons p d ih =>
    by_cases h : p.1 = l
    · simp [getCoeff, h]
    · simp [getCoeff, h, ih]

theorem getCoeff_filterNot (d1 d2 : LDict) (l : String) :
    getCoeff (d2.filter (fun p => !(hasLabel d1 p.1))) l =
      if hasLabel d1 l then 0 else getCoeff d2 l := by
  induction d2 with
  | nil => simp [getCoeff]
  | cons q d2 ih =>
    by_cases hq : q.1 = l
    · subst hq
      by_cases h1 : hasLabel d1 q.1
      · simp [List.filter_cons, h1, ih]
      · simp [List.filter_cons, h1, getCoeff, ih]
    · by_cases h1 : hasLabel d1 q.1
      · simp [List.filter_cons, h1, ih, getCoeff, hq]
      · simp [List.filter_cons, h1, getCoeff, hq, ih]

theorem hasLabel_filterNot (d1 d2 : LDict) (l : String) :
    hasLabel (d2.filter (fun p => !(hasLabel d1 p.1))) l =
      (!(hasLabel d1 l) && hasLabel d2 l) := by
  induction d2 with
  | nil => simp [hasLabel]
  | cons q d2 ih =>
    by_cases hq : q.1 = l
    · subst hq
      by_cases h1 : hasLabel d1 q.1
      · simp [List.filter_cons, h1, ih, hasLabel]
      · simp [List.filter_cons, h1, hasLabel, ih]
    · by_cases h1 : hasLabel d1 q.1
      · simp [List.filter_cons, h1, ih, hasLabel, hq]
      · simp [List.filter_cons, h1, hasLabel, hq, ih]

/-- Pointwise description of the addition merge. -/
theorem getCoeff_addData (d1 d2 : LDict) (l : String) :
    getCoeff (addData d1 d2) l = getCoeff d1 l + getCoeff d2 l := by
  unfold addData
  rw [getCoeff_append, hasLabel_keyMap, getCoeff_addMap, getCoeff_filterNot]
  by_cases h : hasLabel d1 l
  · simp [h]
  · have h0 : getCoeff d1 l = 0 :=
      hasLabel_false_getCoeff (Bool.eq_false_iff.mpr h)
    simp [h, h0, CQ.zero_addCQ]

/-- The support of the addition merge is the union of the supports. -/
theorem hasLabel_addData (d1 d2 : LDict) (l : String) :
    hasLabel (addData d1 d2) l = (hasLabel d1 l || hasLabel d2 l) := by
  unfold addData
  rw [hasLabel_append, hasLabel_keyMap, hasLabel_filterNot]
  by_cases h : hasLabel d1 l <;> simp [h]

/-- Membership of a key in the dict is what hasLabel decides. -/
theorem hasLabel_iff_memKey {d : LDict} {l : String} :
    hasLabel d l = true ↔ l ∈ d.map Prod.fst := by
  induction d with
  | nil => simp [hasLabel]
  | cons p d ih =>
    simp only [hasLabel, Bool.or_eq_true, decide_eq_true_eq, List.map_cons,
      List.mem_cons, ih]
    constructor
    · rintro (h | h)
      · exact Or.inl h.symm
      · exact Or.inr h
    · rintro (h | h)
      · exact Or.inl h.symm
      · exact Or.inr h

theorem memKey_hasLabel {d : LDict} {p : String × CQ}
    (h : p ∈ d) : hasLabel d p.1 = true :=
  hasLabel_iff_memKey.mpr (List.mem_map_of_mem Prod.fst h)

/-! ### Concrete operators of test_sparse_label_op.py -/

/-- op1 of the tests. -/
def op1 : SLOp := ⟨[("+_0 -_1", 0), ("+_0 -_2", 1)], 2⟩

/-- op2 of the tests. -/
def op2 : SLOp := ⟨[("+_0 -_1", ⟨1/2, 0⟩), ("+_0 -_2", 1)], 2⟩

/-- opComplex of the tests. -/
def opComplex : SLOp := ⟨[("+_0 -_1", ⟨1/2, 1⟩), ("+_0 -_2", 1)], 2⟩

/-- The operator of the eq and equiv tests whose first coefficient is the
exact rational value of 1e-9. -/
def opSmall : SLOp := ⟨[("+_0 -_1", ⟨1/1000000000, 0⟩), ("+_0 -_2", 1)], 2⟩

/-- The operator of the equiv test whose first coefficient is the exact
rational value of 1e-6. -/
def opMicro : SLOp := ⟨[("+_0 -_1", ⟨1/1000000, 0⟩), ("+_0 -_2", 1)], 2⟩

/-- The operator of the eq and equiv key-mismatch tests. -/
def opKeys : SLOp := ⟨[("+_0 -_1", 0), ("+_0 -_3", 1)], 2⟩

/-! ### Claim theorems for the sparse-operator algebra -/

/-- C4: for every two SparseLabelOps of equal register length, add maps each
label present in either operand to the sum of the two coefficients, a label
missing in one operand counting as zero; in particular the concrete sum of
the tests, op1 + op2, is the dict mapping the label plus-0 minus-1 to 0.5
and the label plus-0 minus-2 to 2.0 over register length 2. -/
theorem c4_add_pointwise :
    (∀ a b : SLOp, a.registerLength = b.registerLength →
      ∃ r, a.add b = Except.ok r ∧
        r.registerLength = a.registerLength ∧
        (∀ l, getCoeff r.data l = getCoeff a.data l + getCoeff b.data l) ∧
        (∀ l, hasLabel r.data l = (hasLabel a.data l || hasLabel b.data l))) ∧
    op1.add op2 = Except.ok ⟨[("+_0 -_1", ⟨1/2, 0⟩), ("+_0 -_2", ⟨2, 0⟩)], 2⟩ := by
  constructor
  · intro a b h
    refine ⟨⟨addData a.data b.data, a.registerLength⟩, ?_, rfl, ?_, ?_⟩
    · simp [SLOp.add, h]
    · intro l
      exact getCoeff_addData a.data b.data l
    · intro l
      exact hasLabel_addData a.data b.data l
  · show Except.ok _ = Except.ok _
    simp [op1, op2, addData, getCoeff, hasLabel, CQ.add_def, CQ.zero_def,
      CQ.one_def]
    norm_num

/-- Witness for C4 at the concrete operators of the tests. -/
theorem c4_add_pointwise_witness :
    op1.registerLength = op2.registerLength ∧
      ∃ r, op1.add op2 = Except.ok r ∧
        r.registerLength = op1.registerLength ∧
        (∀ l, getCoeff r.data l = getCoeff op1.data l + getCoeff op2.data l) ∧
        (∀ l, hasLabel r.data l = (hasLabel op1.data l || hasLabel op2.data l)) :=
  ⟨rfl, c4_add_pointwise.1 op1 op2 rfl⟩

/-- C7: scalar multiplication by a number multiplies every coefficient by
that number (exactly, in complex arithmetic), a non-numeric scalar is
rejected with the unsupported-operand-type error, and the concrete scenario
of the tests holds: opComplex scaled by 0.5 + 1j equals the dict mapping
the label plus-0 minus-1 to -0.75 + 1.0j and the label plus-0 minus-2 to
0.5 + 1.0j. -/
theorem c7_scale :
    (∀ (a : SLOp) (c : CQ), ∃ r, a.mul (PyScalar.num c) = Except.ok r ∧
        r.registerLength = a.registerLength ∧
        ∀ l, getCoeff r.data l = getCoeff a.data l * c) ∧
    (∀ (a : SLOp) (s : String),
      a.mul (PyScalar.nonNumeric s) = Except.error OpError.unsupportedOperandType) ∧
    opComplex.mul (PyScalar.num ⟨1/2, 1⟩) =
      Except.ok ⟨[("+_0 -_1", ⟨-(3/4), 1⟩), ("+_0 -_2", ⟨1/2, 1⟩)], 2⟩ := by
  refine ⟨?_, fun a s => rfl, ?_⟩
  · intro a c
    refine ⟨⟨a.data.map (fun p => (p.1, p.2 * c)), a.registerLength⟩, ?_, rfl, ?_⟩
    · rfl
    · intro l
      exact getCoeff_mulMap a.data c l
  · show Except.ok _ = Except.ok _
    simp [opComplex, SLOp.mul, CQ.mul_def, CQ.one_def]
    norm_num

/-- C5: for operators of equal register length, exact equality holds iff
the two label sets are identical and every per-label coefficient difference
is exactly zero; and the per-term difference of 1e-9 between op1 and
opSmall already makes equality false. -/
theorem c5_eq_exact :
    (∀ a b : SLOp, a.registerLength = b.registerLength →
      (SLOp.eqB a b = true ↔
        ((∀ l, hasLabel a.data l = hasLabel b.data l) ∧
          ∀ l, getCoeff a.data l = getCoeff b.data l))) ∧
    SLOp.eqB op1 opSmall = false := by
  constructor
  · intro a b h
    constructor
    · intro he
      simp only [SLOp.eqB, Bool.and_eq_true, List.all_eq_true,
        decide_eq_true_eq] at he
      obtain ⟨⟨⟨⟨-, hab⟩, hba⟩, hca⟩, hcb⟩ := he
      constructor
      · intro l
        cases hla : hasLabel a.data l with
        | true =>
          obtain hm := hasLabel_iff_memKey.mp hla
          obtain ⟨p, hp, hpl⟩ := List.mem_map.mp hm
          exact (hpl ▸ hab p hp).symm ▸ rfl
        | false =>
          cases hlb : hasLabel b.data l with
          | true =>
            obtain hm := hasLabel_iff_memKey.mp hlb
            obtain ⟨p, hp, hpl⟩ := List.mem_map.mp hm
            rw [← hpl] at hla
            rw [hba p hp] at hla
            cases hla
          | false => rfl
      · intro l
        cases hla : hasLabel a.data l with
        | true =>
          obtain hm := hasLabel_iff_memKey.mp hla
          obtain ⟨p, hp, hpl⟩ := List.mem_map.mp hm
          exact hpl ▸ hca p hp
        | false =>
          cases hlb : hasLabel b.data l with
          | true =>
            obtain hm := hasLabel_iff_memKey.mp hlb
            obtain ⟨p, hp, hpl⟩ := List.mem_map.mp hm
            rw [← hpl] at hla
            rw [hba p hp] at hla
            cases hla
          | false =>
            rw [hasLabel_false_getCoeff hla, hasLabel_false_getCoeff hlb]
    · rintro ⟨hsup, hco⟩
      simp only [SLOp.eqB, Bool.and_eq_true, List.all_eq_true,
        decide_eq_true_eq]
      refine ⟨⟨⟨⟨by simpa using h, ?_⟩, ?_⟩, fun p _ => hco p.1⟩, fun p _ => hco p.1⟩
      · intro p hp
        rw [← hsup p.1]
        exact memKey_hasLabel hp
      · intro p hp
        rw [hsup p.1]
        exact memKey_hasLabel hp
  · simp [SLOp.eqB, op1, opSmall, hasLabel, getCoeff, CQ.zero_def]

/-- Witness for C5: the characterization applied to op1 against itself. -/
theorem c5_eq_exact_witness : SLOp.eqB op1 op1 = true :=
  (c5_eq_exact.1 op1 op1 rfl).mpr ⟨fun _ => rfl, fun _ => rfl⟩

/-- C6: for operators of equal register length, equivalence at the default
tolerance 1e-8 holds iff every per-label absolute coefficient difference is
at most the tolerance (stated through squared magnitudes over the
rationals); concretely, a difference of 1e-9 is equivalent, a difference of
1e-6 is not, and a label with coefficient 1.0 present in only one operand
is not. -/
theorem c6_equiv_default :
    (∀ a b : SLOp, a.registerLength = b.registerLength →
      (SLOp.equivDefault a b = true ↔
        ∀ l, CQ.sqAbs (getCoeff a.data l - getCoeff b.data l) ≤
          SLOp.defaultTol * SLOp.defaultTol)) ∧
    SLOp.equivDefault op1 opSmall = true ∧
    SLOp.equivDefault op1 opMicro = false ∧
    SLOp.equivDefault op1 opKeys = false := by
  refine ⟨?_, ?_, ?_, ?_⟩
  · intro a b h
    constructor
    · intro he l
      simp only [SLOp.equivDefault, SLOp.equivB, Bool.and_eq_true,
        List.all_eq_true, decide_eq_true_eq] at he
      obtain ⟨-, hall⟩ := he
      by_cases ha : hasLabel a.data l = true
      · exact hall l (List.mem_append_left _ (hasLabel_iff_memKey.mp ha))
      · by_cases hb : hasLabel b.data l = true
        · exact hall l (List.mem_append_right _ (hasLabel_iff_memKey.mp hb))
        · rw [hasLabel_false_getCoeff (Bool.eq_false_iff.mpr ha),
            hasLabel_false_getCoeff (Bool.eq_false_iff.mpr hb),
            CQ.sub_selfCQ, CQ.sqAbs_zero]
          norm_num [SLOp.defaultTol]
    · intro hall
      simp only [SLOp.equivDefault, SLOp.equivB, Bool.and_eq_true,
        List.all_eq_true, decide_eq_true_eq]
      exact ⟨by simpa using h, fun l _ => hall l⟩
  · simp [SLOp.equivDefault, SLOp.equivB, SLOp.defaultTol, op1, opSmall,
      getCoeff, hasLabel, CQ.sub_def, CQ.sqAbs, CQ.zero_def, CQ.one_def]
    norm_num
  · simp [SLOp.equivDefault, SLOp.equivB, SLOp.defaultTol, op1, opMicro,
      getCoeff, hasLabel, CQ.sub_def, CQ.sqAbs, CQ.zero_def, CQ.one_def]
    norm_num
  · simp [SLOp.equivDefault, SLOp.equivB, SLOp.defaultTol, op1, opKeys,
      getCoeff, hasLabel, CQ.sub_def, CQ.sqAbs, CQ.zero_def, CQ.one_def]
    norm_num

/-- Witness for C6: the characterization applied to op1 and opSmall, read
off at the first label. -/
theorem c6_equiv_default_witness :
    CQ.sqAbs (getCoeff op1.data "+_0 -_1" - getCoeff opSmall.data "+_0 -_1") ≤
      SLOp.defaultTol * SLOp.defaultTol :=
  (c6_equiv_default.1 op1 opSmall rfl).mp c6_equiv_default.2.1 "+_0 -_1"

/-- C8: exact equality and tolerance-based equivalence are total boolean
functions (they are Bool valued by construction in this model), and a
mismatched register length yields false rather than an error, at every
tolerance. -/
theorem c8_eq_equiv_total :
    ∀ a b : SLOp, a.registerLength ≠ b.registerLength →
      SLOp.eqB a b = false ∧ ∀ t : ℚ, SLOp.equivB a b t = false := by
  intro a b h
  constructor
  · simp [SLOp.eqB, h]
  · intro t
    simp [SLOp.equivB, h]

/-- Witness for C8 at two empty operators of register lengths 1 and 2. -/
theorem c8_eq_equiv_total_witness :
    SLOp.eqB ⟨[], 1⟩ ⟨[], 2⟩ = false ∧
      SLOp.equivB ⟨[], 1⟩ ⟨[], 2⟩ SLOp.defaultTol = false :=
  ⟨(c8_eq_equiv_total ⟨[], 1⟩ ⟨[], 2⟩ (by decide)).1,
    (c8_eq_equiv_total ⟨[], 1⟩ ⟨[], 2⟩ (by decide)).2 SLOp.defaultTol⟩

/-! ### Construction with the copy flag (claim C9)

Python aliasing is modelled by an explicit store of dict objects: a
reference is an index into the store, constructing a SparseLabelOp with
copy enabled appends a fresh copy of the caller dict to the store, and a
mutation writes through a reference. -/

/-- A heap of dict objects; a python reference is an index into it. -/
abbrev Store := List LDict

/-- A reference to a stored dict plus the immutable register length. -/
structure OpRef where
  dataRef : ℕ
  registerLength : ℕ
  deriving DecidableEq, Repr

/-- Python item assignment on a dict: overwrite the entry when the key
exists, append it otherwise. -/
def dictSet (d : LDict) (l : String) (c : CQ) : LDict :=
  if hasLabel d l then d.map (fun p => if p.1 = l then (l, c) else p)
  else d ++ [(l, c)]

/-- Modelled from the spec: construction with the configurable copy flag
(the SparseLabelOp initializer lives outside src).  With copy enabled the
new instance owns a fresh copy of the caller dict; otherwise it aliases
the caller reference. -/
def constructOp (st : Store) (callerRef : ℕ) (rl : ℕ) (copy : Bool) :
    Store × OpRef :=
  if copy then (st ++ [st.getD callerRef []], ⟨st.length, rl⟩)
  else (st, ⟨callerRef, rl⟩)

/-- Mutate the dict behind a reference with a python item assignment. -/
def mutateDict (st : Store) (ref : ℕ) (l : String) (c : CQ) : Store :=
  st.set ref (dictSet (st.getD ref []) l c)

/-- Read the data dict of a constructed operator out of the store. -/
def readData (st : Store) (r : OpRef) : LDict :=
  st.getD r.dataRef []

/-- C9: with the copy flag enabled, the constructed operator is decoupled
from the caller mapping: for every store, caller dict and subsequent
mutation of the caller dict, the operator data still reads as the original
dict, so every stored coefficient is unchanged. -/
theorem c9_copy_decoupled :
    ∀ (st : Store) (callerRef : ℕ), callerRef < st.length →
      ∀ (rl : ℕ) (l : String) (c : CQ),
        readData
            (mutateDict (constructOp st callerRef rl true).1 callerRef l c)
            (constructOp st callerRef rl true).2 =
          st.getD callerRef [] ∧
        ∀ lab, getCoeff
            (readData
              (mutateDict (constructOp st callerRef rl true).1 callerRef l c)
              (constructOp st callerRef rl true).2) lab =
          getCoeff (st.getD callerRef []) lab := by
  intro st callerRef hlt rl l c
  have hne : callerRef ≠ st.length := Nat.ne_of_lt hlt
  have hread :
      readData
          (mutateDict (constructOp st callerRef rl true).1 callerRef l c)
          (constructOp st callerRef rl true).2 =
        st.getD callerRef [] := by
    show readData
        (mutateDict (st ++ [st.getD callerRef []]) callerRef l c)
        ⟨st.length, rl⟩ =
      st.getD callerRef []
    unfold readData mutateDict
    rw [List.getD_eq_getElem?_getD, List.getElem?_set_ne hne,
      List.getElem?_concat_length]
    rfl
  exact ⟨hread, fun lab => by rw [hread]⟩

/-- Witness for C9 at a one-dict store. -/
theorem c9_copy_decoupled_witness :
    readData
        (mutateDict
          (constructOp [[("+_0 -_1", 0)]] 0 2 true).1 0 "+_0 -_1" ⟨1/5, 0⟩)
        (constructOp [[("+_0 -_1", 0)]] 0 2 true).2 =
      [("+_0 -_1", 0)] :=
  (c9_copy_decoupled [[("+_0 -_1", 0)]] 0 (by decide) 2 "+_0 -_1" ⟨1/5, 0⟩).1

/-! ### The Magnetization property (magnetization.py, claim C10) -/

/-- The diagonal label of mode o, the f-string of the source:
plus-underscore-o space minus-underscore-o. -/
def diagLabel (o : ℕ) : String :=
  "+_" ++ toString o ++ " -_" ++ toString o

/-- The FermionicOp built by Magnetization.second_q_ops: one entry per mode
o in range(num_spin_orbitals), label the diagonal label of o, coefficient
0.5 when o is below num_spin_orbitals integer-divided by 2 and -0.5
otherwise, over register length num_spin_orbitals. -/
def magnetizationOp (n : ℕ) : SLOp :=
  ⟨(List.range n).map
      (fun o => (diagLabel o, if o < n / 2 then (⟨1/2, 0⟩ : CQ) else ⟨-(1/2), 0⟩)),
    n⟩

/-- Magnetization.second_q_ops returns the one-entry dict keyed by the
property name. -/
def magnetizationSecondQOps (n : ℕ) : List (String × SLOp) :=
  [("Magnetization", magnetizationOp n)]

/-- C10: for every number of spin orbitals n, second_q_ops returns a single
operator, of register length n, with exactly n terms, whose o-th term is
the diagonal label of mode o with coefficient 0.5 when o is below the floor
of n over 2 and -0.5 otherwise. -/
theorem c10_magnetization :
    ∀ n : ℕ,
      (magnetizationSecondQOps n).length = 1 ∧
      (magnetizationOp n).registerLength = n ∧
      (magnetizationOp n).data.length = n ∧
      ∀ o, o < n →
        (magnetizationOp n).data[o]? =
          some (diagLabel o,
            if o < n / 2 then (⟨1/2, 0⟩ : CQ) else ⟨-(1/2), 0⟩) := by
  intro n
  refine ⟨rfl, rfl, by simp [magnetizationOp], ?_⟩
  intro o ho
  simp [magnetizationOp, List.getElem?_map, List.getElem?_range, ho]

/-- Witness for C10 at four spin orbitals, mode 1 (an alpha mode) and mode
2 (a beta mode). -/
theorem c10_magnetization_witness :
    (magnetizationOp 4).data[1]? =
      some (diagLabel 1,
        if 1 < 4 / 2 then (⟨1/2, 0⟩ : CQ) else ⟨-(1/2), 0⟩) ∧
    (magnetizationOp 4).data[2]? =
      some (diagLabel 2,
        if 2 < 4 / 2 then (⟨1/2, 0⟩ : CQ) else ⟨-(1/2), 0⟩) :=
  ⟨(c10_magnetization 4).2.2.2 1 (by decide),
    (c10_magnetization 4).2.2.2 2 (by decide)⟩

/-! ### Fermionic excitation pool (claims C1, C2, C3)

The excitation generator and the UCCSD ansatz classes live outside src;
only their tests do (test_uccsd.py).  The pool is therefore modelled from
the spec, except for the within-order emission order, where the expected
operator sequences of test_uccsd.py are authoritative and pin the
combination-of-the-singles-pool order reproduced below; the validation
theorems at the end of this section prove that the model reproduces every
expected sequence of that test file exactly. -/

/-- A fermionic token: creation (true) or annihilation (false) on a mode
index.  The token (true, i) renders as plus-underscore-i. -/
abbrev FToken := Bool × ℕ

/-- A fermionic operator: a list of token-string terms with complex
coefficients (the dict of a FermionicOp, insertion ordered). -/
abbrev FOp := List (List FToken × CQ)

/-- The imaginary coefficient -1j. -/
def CQnegI : CQ := ⟨0, -1⟩

/-- itertools.combinations: every k-element subsequence, emitted in the
lexicographic order of member positions. -/
def combinationsN {α : Type} : ℕ → List α → List (List α)
  | 0, _ => [[]]
  | _ + 1, [] => []
  | k + 1, x :: xs =>
    (combinationsN k xs).map (fun c => x :: c) ++ combinationsN (k + 1) xs

/-- itertools.product of two index lists. -/
def listProd (xs ys : List ℕ) : List (ℕ × ℕ) :=
  xs.foldr (fun x acc => ys.map (fun y => (x, y)) ++ acc) []

/-- itertools.combinations(indices, 2): the ascending pairs drawn from the
list, first member varying slowest. -/
def combPairs : List ℕ → List (ℕ × ℕ)
  | [] => []
  | x :: xs => xs.map (fun y => (x, y)) ++ combPairs xs

/-- Modelled from the spec: the single-excitation pool of the excitation
generator (generate_fermionic_excitations lives outside src).  With spin
preservation the alpha singles are occupied x virtual products inside the
alpha block (all ascending pairs of the block when generalized), then the
beta block shifted by half the register; without spin preservation the
sources run over the occupied modes of both blocks and the targets over
the virtual modes of both blocks (all ascending mode pairs when
generalized). -/
def singleExcPool (n nAlpha nBeta : ℕ) (generalized preserveSpin : Bool) :
    List (ℕ × ℕ) :=
  if preserveSpin then
    (if generalized then combPairs (List.range (n / 2))
     else listProd (List.range' 0 nAlpha) (List.range' nAlpha (n / 2 - nAlpha))) ++
    (if generalized then combPairs ((List.range (n / 2)).map (fun i => i + n / 2))
     else listProd (List.range' (n / 2) nBeta)
       (List.range' (n / 2 + nBeta) (n - (n / 2 + nBeta))))
  else
    if generalized then combPairs (List.range n)
    else
      listProd (List.range' 0 nAlpha ++ List.range' (n / 2) nBeta)
        (List.range' nAlpha (n / 2 - nAlpha) ++
          List.range' (n / 2 + nBeta) (n - (n / 2 + nBeta)))

/-- Whether the index list has no duplicates; for a combination of k
source-target pairs this is exactly the python check that the frozenset of
its 2k indices has 2k elements. -/
def nodupB : List ℕ → Bool
  | [] => true
  | x :: xs => !(xs.contains x) && nodupB xs

/-- Set equality of index lists, the equality of their frozensets. -/
def sameSetB (a b : List ℕ) : Bool :=
  a.all (fun x => b.contains x) && b.all (fun x => a.contains x)

/-- The emission loop of the generator: walk the combinations, keep one
when all of its indices are distinct and its index set was not seen
before, and record the index set of every kept combination. -/
def dedupFilter : List (List (ℕ × ℕ)) → List (List ℕ) → List (List ℕ × List ℕ)
  | [], _ => []
  | exc :: rest, seen =>
    let srcs := exc.map Prod.fst
    let tgts := exc.map Prod.snd
    let inds := srcs ++ tgts
    if nodupB inds && !(seen.any (fun s => sameSetB inds s)) then
      (srcs, tgts) :: dedupFilter rest (inds :: seen)
    else
      dedupFilter rest seen

/-- Modelled from the spec: the excitation descriptors of order k, as
(source modes, target modes) pairs, emitted by walking the k-element
combinations of the single-excitation pool in combination order with the
distinct-index and first-seen-index-set filters. -/
def generateFermionicExcitations (k n nAlpha nBeta : ℕ)
    (generalized preserveSpin : Bool) : List (List ℕ × List ℕ) :=
  dedupFilter (combinationsN k (singleExcPool n nAlpha nBeta generalized preserveSpin)) []

/-- The singles-then-doubles descriptor sequence of the UCCSD ansatz. -/
def uccsdExcitations (n nAlpha nBeta : ℕ) (generalized preserveSpin : Bool) :
    List (List ℕ × List ℕ) :=
  generateFermionicExcitations 1 n nAlpha nBeta generalized preserveSpin ++
    generateFermionicExcitations 2 n nAlpha nBeta generalized preserveSpin

/-- The forward token string of a descriptor: a creation token per source
mode then an annihilation token per target mode, matching the label list
built by the ansatz. -/
def excitationTokens (e : List ℕ × List ℕ) : List FToken :=
  e.1.map (fun i => (true, i)) ++ e.2.map (fun i => (false, i))

/-- The adjoint of a token string: reverse the order and swap creation
with annihilation. -/
def adjTokens (ts : List FToken) : List FToken :=
  ts.reverse.map (fun t => (!t.1, t.2))

/-- Modelled from the spec: the generator operator of one descriptor.  The
ansatz builds the forward term at coefficient one, subtracts its adjoint
and multiplies by 1j, leaving the forward term at 1j and the adjoint term
at -1j, exactly the two-term dicts of test_uccsd.py. -/
def excitationOp (e : List ℕ × List ℕ) : FOp :=
  [(excitationTokens e, CQ.I), (adjTokens (excitationTokens e), CQnegI)]

/-- The ordered UCCSD generator pool. -/
def uccsdOps (n nAlpha nBeta : ℕ) (generalized preserveSpin : Bool) : List FOp :=
  (uccsdExcitations n nAlpha nBeta generalized preserveSpin).map excitationOp

/-- The coefficient of a token string in a fermionic operator: the sum of
the coefficients of the matching terms. -/
def fCoeff : FOp → List FToken → CQ
  | [], _ => 0
  | t :: op, l => if t.1 = l then t.2 + fCoeff op l else fCoeff op l

/-- The adjoint of a fermionic operator: adjoint of every token string,
conjugate of every coefficient. -/
def adjointFOp (op : FOp) : FOp :=
  op.map (fun t => (adjTokens t.1, CQ.conj t.2))

/-- Scaling of a fermionic operator. -/
def scaleFOp (op : FOp) (c : CQ) : FOp :=
  op.map (fun t => (t.1, t.2 * c))

/-- Strict lexicographic comparison of index lists. -/
def listLtN : List ℕ → List ℕ → Bool
  | [], [] => false
  | [], _ :: _ => true
  | _ :: _, [] => false
  | a :: as, b :: bs => decide (a < b) || (decide (a = b) && listLtN as bs)

/-- Non-strict lexicographic comparison of (source list, target list)
pairs: source lists compared first, target lists break ties. -/
def pairLeN (x y : List ℕ × List ℕ) : Bool :=
  listLtN x.1 y.1 || (decide (x.1 = y.1) && (listLtN x.2 y.2 || decide (x.2 = y.2)))

/-- Whether a descriptor sequence is sorted by the lexicographic order on
(source list, target list) pairs. -/
def isLexSortedPairs : List (List ℕ × List ℕ) → Bool
  | [] => true
  | [_] => true
  | x :: y :: rest => pairLeN x y && isLexSortedPairs (y :: rest)

/-! ### Structure lemmas for the generator -/

/-- The emission loop only ever drops combinations: its output is a
subsequence of the walked combinations, in their order. -/
theorem dedupFilter_sublist (l : List (List (ℕ × ℕ))) (seen : List (List ℕ)) :
    List.Sublist (dedupFilter l seen)
      (l.map (fun exc => (exc.map Prod.fst, exc.map Prod.snd))) := by
  induction l generalizing seen with
  | nil => simp [dedupFilter]
  | cons exc rest ih =>
    simp only [dedupFilter, List.map_cons]
    split
    · exact List.Sublist.cons₂ _ (ih _)
    · exact List.Sublist.cons _ (ih _)

/-- Every emitted descriptor is the source-target split of a walked
combination. -/
theorem mem_dedupFilter {l : List (List (ℕ × ℕ))} {seen : List (List ℕ)}
    {e : List ℕ × List ℕ} (he : e ∈ dedupFilter l seen) :
    ∃ exc ∈ l, e = (exc.map Prod.fst, exc.map Prod.snd) := by
  induction l generalizing seen with
  | nil => simp [dedupFilter] at he
  | cons exc rest ih =>
    simp only [dedupFilter] at he
    split at he
    · rcases List.mem_cons.mp he with h | h
      · exact ⟨exc, List.mem_cons_self _ _, h⟩
      · obtain ⟨x, hx, hxe⟩ := ih h
        exact ⟨x, List.mem_cons_of_mem _ hx, hxe⟩
    · obtain ⟨x, hx, hxe⟩ := ih he
      exact ⟨x, List.mem_cons_of_mem _ hx, hxe⟩

/-- Every k-combination has k elements. -/
theorem combinationsN_length {α : Type} :
    ∀ (l : List α) (k : ℕ), ∀ c ∈ combinationsN k l, c.length = k := by
  intro l
  induction l with
  | nil =>
    intro k c hc
    cases k with
    | zero => simp [combinationsN] at hc; simp [hc]
    | succ k => simp [combinationsN] at hc
  | cons x xs ih =>
    intro k c hc
    cases k with
    | zero => simp [combinationsN] at hc; simp [hc]
    | succ k =>
      simp only [combinationsN, List.mem_append, List.mem_map] at hc
      rcases hc with ⟨c0, hc0, rfl⟩ | hc
      · simp [ih k c0 hc0]
      · exact ih (k + 1) c hc

/-- The tokens of the adjoint of the adjoint are the original tokens. -/
theorem adjTokens_adjTokens (ts : List FToken) : adjTokens (adjTokens ts) = ts := by
  simp only [adjTokens, List.map_reverse, List.reverse_reverse, List.map_map]
  have hid : ((fun (t : FToken) => (!t.1, t.2)) ∘ fun (t : FToken) => (!t.1, t.2)) = id := by
    funext t
    simp [Function.comp]
  rw [hid, List.map_id]

theorem conj_I : CQ.conj CQ.I = CQnegI := rfl

theorem conj_negI : CQ.conj CQnegI = CQ.I := by
  simp only [CQ.conj, CQnegI, CQ.I, CQ.mk.injEq]
  norm_num

/-- The coefficient read off a two-term operator does not depend on the
order of the two terms. -/
theorem fCoeff_pair_swap (x y : List FToken × CQ) (l : List FToken) :
    fCoeff [x, y] l = fCoeff [y, x] l := by
  by_cases hx : x.1 = l <;> by_cases hy : y.1 = l <;>
    simp [fCoeff, hx, hy, CQ.add_zeroCQ]
  exact CQ.addComm _ _

/-- The first generator of the singles-and-doubles pool for four spin
orbitals and one particle of each spin. -/
def g0 : FOp := excitationOp ([0], [1])

theorem g0_mem : g0 ∈ uccsdOps 4 1 1 false true := by
  have h : uccsdOps 4 1 1 false true =
      [g0, excitationOp ([2], [3]), excitationOp ([0, 2], [1, 3])] := rfl
  rw [h]
  exact List.mem_cons_self _ _

/-! ### Claim theorems for the excitation pool -/

/-- C1 counterexample: for eight spin orbitals and particle counts (2, 2),
the doubles are not emitted in lexicographic (source tuple, target tuple)
order: the descriptor (sources 0 5, targets 2 7) is emitted at position 4,
before (sources 0 4, targets 3 6) at position 5, although the latter is
lexicographically smaller; the emitted doubles sequence is not
lexicographically sorted. -/
theorem c1_counterexample :
    (generateFermionicExcitations 2 8 2 2 false true)[4]? = some ([0, 5], [2, 7]) ∧
    (generateFermionicExcitations 2 8 2 2 false true)[5]? = some ([0, 4], [3, 6]) ∧
    pairLeN ([0, 5], [2, 7]) ([0, 4], [3, 6]) = false ∧
    pairLeN ([0, 4], [3, 6]) ([0, 5], [2, 7]) = true ∧
    isLexSortedPairs (generateFermionicExcitations 2 8 2 2 false true) = false :=
  ⟨by decide, by decide, by decide, by decide, by decide⟩

/-- C1 (amended): generators are emitted by excitation order ascending
(the UCCSD sequence is all order-one descriptors followed by all order-two
descriptors, as the length facts below express), and within each order in
the order of the k-element combinations of the single-excitation pool
(alpha singles then beta singles, each block in occupied-major product
order), skipping combinations with repeated indices or a previously seen
index set - not in lexicographic (source tuple, target tuple) order.  The
emitted sequence is a subsequence of the combination walk, every emitted
order-k descriptor has k sources and k targets, and the concrete sequence
for eight spin orbitals and particle counts (2, 2) is exactly the one
pinned by test_uccsd.py. -/
theorem c1_order_amended :
    (∀ (k n nAlpha nBeta : ℕ) (generalized preserveSpin : Bool),
      List.Sublist
        (generateFermionicExcitations k n nAlpha nBeta generalized preserveSpin)
        ((combinationsN k (singleExcPool n nAlpha nBeta generalized preserveSpin)).map
          (fun exc => (exc.map Prod.fst, exc.map Prod.snd)))) ∧
    (∀ (k n nAlpha nBeta : ℕ) (generalized preserveSpin : Bool)
        (e : List ℕ × List ℕ),
      e ∈ generateFermionicExcitations k n nAlpha nBeta generalized preserveSpin →
        e.1.length = k ∧ e.2.length = k) ∧
    uccsdExcitations 8 2 2 false true =
      [([0], [2]), ([0], [3]), ([1], [2]), ([1], [3]),
       ([4], [6]), ([4], [7]), ([5], [6]), ([5], [7]),
       ([0, 1], [2, 3]), ([0, 4], [2, 6]), ([0, 4], [2, 7]),
       ([0, 5], [2, 6]), ([0, 5], [2, 7]), ([0, 4], [3, 6]), ([0, 4], [3, 7]),
       ([0, 5], [3, 6]), ([0, 5], [3, 7]), ([1, 4], [2, 6]), ([1, 4], [2, 7]),
       ([1, 5], [2, 6]), ([1, 5], [2, 7]), ([1, 4], [3, 6]), ([1, 4], [3, 7]),
       ([1, 5], [3, 6]), ([1, 5], [3, 7]), ([4, 5], [6, 7])] := by
  refine ⟨?_, ?_, by decide⟩
  · intro k n na nb gen ps
    exact dedupFilter_sublist _ _
  · intro k n na nb gen ps e he
    obtain ⟨exc, hexc, rfl⟩ := mem_dedupFilter he
    have hlen := combinationsN_length _ k exc hexc
    simp [hlen]

/-- Witness for C1 (amended) at the first single of the (8, (2, 2))
pool. -/
theorem c1_order_amended_witness :
    (([0], [2]) : List ℕ × List ℕ).1.length = 1 ∧
      (([0], [2]) : List ℕ × List ℕ).2.length = 1 :=
  c1_order_amended.2.1 1 8 2 2 false true ([0], [2]) (by decide)

/-- C2: the singles-and-doubles pool for four spin orbitals, particle
counts (1, 1), spin preserving and non-generalized, is exactly three
generators in this order: the same-spin single on block 0 (creation on
mode 0, annihilation on mode 1, with its adjoint term), the same-spin
single on block 1 (modes 2 and 3), and the one cross-block double with
sources 0 and 2 and targets 1 and 3. -/
theorem c2_pool_4_11 :
    uccsdOps 4 1 1 false true =
      [[([(true, 0), (false, 1)], CQ.I), ([(true, 1), (false, 0)], CQnegI)],
       [([(true, 2), (false, 3)], CQ.I), ([(true, 3), (false, 2)], CQnegI)],
       [([(true, 0), (true, 2), (false, 1), (false, 3)], CQ.I),
        ([(true, 3), (true, 1), (false, 2), (false, 0)], CQnegI)]] := rfl

/-- C3 counterexample: the first generator of the (4, (1, 1)) pool has
adjoint coefficient i at the forward token string while its scaling by
minus one has coefficient -i there, so the adjoint of a generator is not
the generator scaled by minus one. -/
theorem c3_counterexample :
    g0 ∈ uccsdOps 4 1 1 false true ∧
    fCoeff (adjointFOp g0) [(true, 0), (false, 1)] = CQ.I ∧
    fCoeff (scaleFOp g0 ⟨-1, 0⟩) [(true, 0), (false, 1)] = CQnegI ∧
    CQ.I ≠ CQnegI := by
  refine ⟨g0_mem, ?_, ?_, ?_⟩
  · simp [g0, excitationOp, excitationTokens, adjointFOp, adjTokens, fCoeff,
      conj_I, conj_negI, CQ.add_zeroCQ]
  · simp [g0, excitationOp, excitationTokens, adjTokens, scaleFOp, fCoeff,
      CQ.add_zeroCQ, CQ.mul_def, CQ.I, CQnegI]
  · simp only [CQ.I, CQnegI, ne_eq, CQ.mk.injEq, not_and]
    intro
    norm_num

/-- C3 (amended): every generator emitted by the pool is the sum of the
forward excitation term at coefficient i and that term's adjoint (token
order reversed, creation and annihilation swapped) at coefficient -i, and
is Hermitian rather than anti-Hermitian: its adjoint (label reversed and
swapped, coefficient conjugated, per term) equals the generator itself. -/
theorem c3_hermitian :
    ∀ (n nAlpha nBeta : ℕ) (generalized preserveSpin : Bool) (g : FOp),
      g ∈ uccsdOps n nAlpha nBeta generalized preserveSpin →
      (∃ e ∈ uccsdExcitations n nAlpha nBeta generalized preserveSpin,
        g = [(excitationTokens e, CQ.I), (adjTokens (excitationTokens e), CQnegI)]) ∧
      ∀ l, fCoeff (adjointFOp g) l = fCoeff g l := by
  intro n na nb gen ps g hg
  obtain ⟨e, he, hge⟩ := List.mem_map.mp hg
  constructor
  · exact ⟨e, he, hge.symm⟩
  · intro l
    rw [← hge]
    have hadj : adjointFOp (excitationOp e) =
        [(adjTokens (excitationTokens e), CQnegI), (excitationTokens e, CQ.I)] := by
      simp [adjointFOp, excitationOp, adjTokens_adjTokens, conj_I, conj_negI]
    rw [hadj]
    exact fCoeff_pair_swap _ _ l

/-- Witness for C3 (amended): the adjoint of the first (4, (1, 1))
generator agrees with the generator at the forward token string. -/
theorem c3_hermitian_witness :
    fCoeff (adjointFOp g0) [(true, 0), (false, 1)] =
      fCoeff g0 [(true, 0), (false, 1)] :=
  (c3_hermitian 4 1 1 false true g0 g0_mem).2 [(true, 0), (false, 1)]

/-! ### Validation against the remaining expected sequences of
test_uccsd.py -/

theorem validationPool4d11 :
    uccsdExcitations 4 1 1 false true =
      [([0], [1]), ([2], [3]), ([0, 2], [1, 3])] := by decide

theorem validationPool8d21 :
    uccsdExcitations 8 2 1 false true =
      [([0], [2]), ([0], [3]), ([1], [2]), ([1], [3]),
       ([4], [5]), ([4], [6]), ([4], [7]),
       ([0, 1], [2, 3]), ([0, 4], [2, 5]), ([0, 4], [2, 6]), ([0, 4], [2, 7]),
       ([0, 4], [3, 5]), ([0, 4], [3, 6]), ([0, 4], [3, 7]),
       ([1, 4], [2, 5]), ([1, 4], [2, 6]), ([1, 4], [2, 7]),
       ([1, 4], [3, 5]), ([1, 4], [3, 6]), ([1, 4], [3, 7])] := by decide

theorem validationPoolGen6d11 :
    uccsdExcitations 6 1 1 true true =
      [([0], [1]), ([0], [2]), ([1], [2]), ([3], [4]), ([3], [5]), ([4], [5]),
       ([0, 3], [1, 4]), ([0, 3], [1, 5]), ([0, 4], [1, 5]),
       ([0, 3], [2, 4]), ([0, 3], [2, 5]), ([0, 4], [2, 5]),
       ([1, 3], [2, 4]), ([1, 3], [2, 5]), ([1, 4], [2, 5])] := by decide

theorem validationPoolNoSpin4d11 :
    uccsdExcitations 4 1 1 false false =
      [([0], [1]), ([0], [3]), ([2], [1]), ([2], [3]), ([0, 2], [1, 3])] := by decide

theorem validationPoolNoSpin6d11 :
    uccsdExcitations 6 1 1 false false =
      [([0], [1]), ([0], [2]), ([0], [4]), ([0], [5]),
       ([3], [1]), ([3], [2]), ([3], [4]), ([3], [5]),
       ([0, 3], [1, 2]), ([0, 3], [1, 4]), ([0, 3], [1, 5]),
       ([0, 3], [2, 4]), ([0, 3], [2, 5]), ([0, 3], [4, 5])] := by decide

end QiskitNature
